import Mathlib

/-!
Shallow embedding of the product-scraping core of `scripts/scraper.py`
(Blumenau Automação catalog pipeline): the `Product` record and its content
fingerprint, the SQLite-backed progress/cache store (`ProductsDB`), the crawl
engine (`BaseScraper.fetch`, `_process_url`, `scrape_all`) and the catalog
merger (`save_products`).

Modelling conventions:
* Python floats carrying prices are modelled by `ℚ` (the comparisons and
  formatting used by the code are exact on the values that occur).
* Fallible fetches return `Option`; a `none` from the per-attempt oracle
  stands for a raised `requests.RequestException` (timeout / non-2xx).
* The SQLite tables are modelled as in-memory row lists with the row-level
  semantics of the statements the code issues (`INSERT OR IGNORE`,
  `INSERT OR REPLACE`, `UPDATE ... WHERE url = ?`, `DELETE`, `SELECT`).
* Timestamps written by the code (`datetime.now(...).isoformat()`) are an
  explicit `now : String` parameter.
* Python's stable `sorted` / `list.sort` is modelled by `List.insertionSort`,
  which is likewise a stable sort.
-/

namespace Scraper

/-- Models Python `x or default` for an optional string: both `None` and the
empty string are falsy, so either yields `default`. -/
def pyStrOr (x : Option String) (dflt : String) : String :=
  match x with
  | none => dflt
  | some s => if s = "" then dflt else s

/-- Models Python `str` on a bool: `"True"` / `"False"`. -/
def pyBoolStr (b : Bool) : String :=
  if b then "True" else "False"

/-- Base-10 digits of `n`, least significant first, computed with explicit
fuel (equal to `Nat.digits 10 n`, see `natDigits_eq_digits`). -/
def natDigitsFuel : ℕ → ℕ → List ℕ
  | 0, _ => []
  | fuel + 1, n => if n = 0 then [] else n % 10 :: natDigitsFuel fuel (n / 10)

/-- Base-10 digits of `n`, least significant first. -/
def natDigits (n : ℕ) : List ℕ := natDigitsFuel n n

/-- Decimal digit characters of a natural number, most significant digit
first; models the digit run of Python's numeric formatting. -/
def natChars (n : ℕ) : List Char :=
  if n = 0 then ['0'] else ((natDigits n).map Nat.digitChar).reverse

/-- Strict lexicographic comparison of character lists by code point; models
Python's string `<`. -/
def strLtB : List Char → List Char → Bool
  | [], [] => false
  | [], _ :: _ => true
  | _ :: _, [] => false
  | a :: as, b :: bs =>
    if a.toNat < b.toNat then true
    else if b.toNat < a.toNat then false
    else strLtB as bs

/-- Python's string `≤` (the sort-key comparison of `list.sort`/`sorted`). -/
def pyStrLe (a b : String) : Bool := !(strLtB b.data a.data)

/-- Textual rendering of a rational price, modelling Python `str(price)`
inside an f-string: a deterministic, injective decimal rendering whose
characters are digits, the sign mark and the fraction slash (in particular
never the `"|"` separator used by `content_hash`). -/
def ratStr (q : ℚ) : String :=
  ⟨(if q.num < 0 then ['-'] else []) ++ natChars q.num.natAbs ++
    (if q.den = 1 then [] else '/' :: natChars q.den)⟩

/-- `Product` dataclass of `scraper.py` (lines 75–113): one scraped item.
Optional dataclass fields keep their defaults; `specs` (a Python dict built in
insertion order) is an ordered association list, `videos` a list of
(url, platform) pairs, `dimensions_cm` an ordered mapping name → length. -/
structure Product where
  id : String
  sku : String
  name : String
  slug : String
  price : ℚ
  priceFormatted : String
  sourceUrl : String
  supplier : String
  inStock : Bool := true
  brand : Option String := none
  pricePix : Option ℚ := none
  stock : Option Int := none
  description : Option String := none
  specs : Option (List (String × String)) := none
  category : Option String := none
  categoryPath : Option (List String) := none
  image : Option String := none
  images : Option (List String) := none
  videos : Option (List (String × String)) := none
  datasheet : Option String := none
  warranty : Option String := none
  gtin : Option String := none
  weight_kg : Option ℚ := none
  dimensions_cm : Option (List (String × ℚ)) := none
  deriving DecidableEq

/-- `Product.content_hash` (lines 110–113): the md5 digest of
`f"{self.name}|{self.price}|{self.inStock}|{self.description or ''}"`.
md5 is a fixed deterministic function of its input, so the digest is modelled
by the input string itself (collisions of md5 are not modelled). -/
def content_hash (p : Product) : String :=
  p.name ++ "|" ++ ratStr p.price ++ "|" ++ pyBoolStr p.inStock ++ "|" ++
    pyStrOr p.description ""

/-- One row of the `urls_progress` table (`url` is the primary key). -/
structure ProgressRow where
  url : String
  supplier : String
  status : String
  processedAt : Option String
  result : Option String
  deriving DecidableEq

/-- One row of the `products_cache` table (`id` primary key,
`(supplier, sku)` unique). Every writer supplies every column, so the
columns are modelled as non-null. -/
structure CacheRow where
  id : String
  supplier : String
  sku : String
  price : ℚ
  content_hash : String
  last_scraped : String
  source_url : String
  deriving DecidableEq

/-- The state held by `ProductsDB`: the two tables the claims touch.
(The append-only `scrape_runs` audit table is not modelled.) -/
structure DB where
  urlsProgress : List ProgressRow
  productsCache : List CacheRow
  deriving DecidableEq

/-- The empty database (fresh `_init_db`). -/
def DB.empty : DB := ⟨[], []⟩

/-- `SELECT` of the unique `urls_progress` row keyed by `url`, if present. -/
def lookupUrl (db : DB) (url : String) : Option ProgressRow :=
  db.urlsProgress.find? (fun r => r.url = url)

/-- `ProductsDB.get_cached_product` (lines 163–172): the row of
`products_cache` with this `(supplier, sku)` pair, if any. -/
def get_cached_product (db : DB) (supplier sku : String) : Option CacheRow :=
  db.productsCache.find? (fun r => r.supplier = supplier ∧ r.sku = sku)

/-- `ProductsDB.update_product_cache` (lines 174–191): `INSERT OR REPLACE`
keyed by the `id` primary key and the `(supplier, sku)` unique constraint —
conflicting rows are replaced by the freshly computed row. -/
def update_product_cache (db : DB) (p : Product) (now : String) : DB :=
  { db with productsCache :=
      (db.productsCache.filter (fun r =>
        ¬(r.id = p.id ∨ (r.supplier = p.supplier ∧ r.sku = p.sku)))) ++
      [⟨p.id, p.supplier, p.sku, p.price, content_hash p, now, p.sourceUrl⟩] }

/-- `ProductsDB.product_changed` (lines 193–198): `True` for a product with
no cached row, otherwise whether the cached hash differs from the fresh one. -/
def product_changed (db : DB) (p : Product) : Bool :=
  match get_cached_product db p.supplier p.sku with
  | none => true
  | some cached => cached.content_hash ≠ content_hash p

/-- `ProductsDB.register_urls` (lines 200–209): for each URL in order, an
`INSERT OR IGNORE` of `(url, supplier, 'pending')` — a row whose `url` key is
already present is left untouched. -/
def register_urls (db : DB) (urls : List String) (supplier : String) : DB :=
  { db with urlsProgress :=
      urls.foldl (fun rows url =>
        if rows.any (fun r => r.url = url) then rows
        else rows ++ [⟨url, supplier, "pending", none, none⟩]) db.urlsProgress }

/-- `ProductsDB.get_pending_urls` (lines 211–219). -/
def get_pending_urls (db : DB) (supplier : String) : List String :=
  (db.urlsProgress.filter (fun r => r.supplier = supplier ∧ r.status = "pending")).map
    (fun r => r.url)

/-- `ProductsDB.get_all_urls` (lines 221–229). -/
def get_all_urls (db : DB) (supplier : String) : List String :=
  (db.urlsProgress.filter (fun r => r.supplier = supplier)).map (fun r => r.url)

/-- `ProductsDB.mark_url_done` (lines 231–239): `UPDATE urls_progress SET
status = 'done', processed_at = now, result = result WHERE url = ?` —
only already-present rows are affected, none are inserted. -/
def mark_url_done (db : DB) (url : String) (result : String) (now : String) : DB :=
  { db with urlsProgress :=
      db.urlsProgress.map (fun r =>
        if r.url = url then
          { r with status := "done", processedAt := some now, result := some result }
        else r) }

/-- `ProductsDB.mark_url_error` (lines 241–249): like `mark_url_done` but with
status `'error'` and the error text truncated to 500 characters. -/
def mark_url_error (db : DB) (url : String) (error : String) (now : String) : DB :=
  { db with urlsProgress :=
      db.urlsProgress.map (fun r =>
        if r.url = url then
          { r with status := "error", processedAt := some now,
                   result := some (⟨error.data.take 500⟩ : String) }
        else r) }

/-- `ProductsDB.reset_urls` (lines 251–256): `DELETE FROM urls_progress WHERE
supplier = ?`. -/
def reset_urls (db : DB) (supplier : String) : DB :=
  { db with urlsProgress := db.urlsProgress.filter (fun r => ¬ r.supplier = supplier) }

/-- Aggregate counts returned by `ProductsDB.get_progress`. -/
structure Progress where
  total : ℕ
  done : ℕ
  errors : ℕ
  pending : ℕ
  deriving DecidableEq

/-- `ProductsDB.get_progress` (lines 258–271): `COUNT(*)` per status; as in the
code, `pending` is computed as `total - done - errors`, not counted. -/
def get_progress (db : DB) (supplier : String) : Progress :=
  let total := (db.urlsProgress.filter (fun r => r.supplier = supplier)).length
  let done := (db.urlsProgress.filter
    (fun r => r.supplier = supplier ∧ r.status = "done")).length
  let errors := (db.urlsProgress.filter
    (fun r => r.supplier = supplier ∧ r.status = "error")).length
  ⟨total, done, errors, total - done - errors⟩

/-- Static configuration and environment of one supplier's crawl.
`BaseScraper` is abstract over `get_product_urls` and the page parser;
`fetchOracle url attempt` is the outcome of the HTTP GET of `url` on the
given (0-based) attempt, `none` standing for a raised
`requests.RequestException`; `parsePage` models the (pure) extraction a
`MagazordScraper` performs on fetched page text; `productUrls` is the result
of sitemap discovery (`get_product_urls`). -/
structure ScrapeConfig where
  sourceName : String
  minPrice : ℚ
  fetchOracle : String → ℕ → Option String
  parsePage : String → Option Product
  productUrls : List String
  now : String

/-- `BaseScraper.fetch` (lines 322–333): up to `retries` attempts starting at
`attempt`; a raised `RequestException` (`none` from the oracle) is swallowed,
the loop sleeps and retries; the first successful response body is returned;
exhausting every attempt returns `None`. -/
def fetchFrom (oracle : String → ℕ → Option String) (url : String) :
    ℕ → ℕ → Option String
  | _, 0 => none
  | attempt, retries + 1 =>
    match oracle url attempt with
    | some text => some text
    | none => fetchFrom oracle url (attempt + 1) retries

/-- `fetch` with its default of 3 retries, as every caller uses it. -/
def fetch (cfg : ScrapeConfig) (url : String) : Option String :=
  fetchFrom cfg.fetchOracle url 0 3

/-- `MagazordScraper.parse_product` (lines 619–625 and 981–983): fetch the
page; `if not html_content: return None` (fetch failure or empty body);
otherwise extract a product from the page text — the HTML/JSON extraction
waterfall is abstracted by `cfg.parsePage`, and any exception it would raise
is caught inside `parse_product` itself and becomes `None`. -/
def parse_product (cfg : ScrapeConfig) (url : String) : Option Product :=
  match fetch cfg url with
  | none => none
  | some text => if text = "" then none else cfg.parsePage text

/-- `BaseScraper._process_url` (lines 335–366), with the database present (as
in every claim): parse, apply the minimum-price filter
(`product.price and product.price >= self.min_price` — Python truthiness
rejects a price of `0`), skip unchanged fingerprints in incremental mode, and
record the per-URL outcome. Returns the accepted product (if any) and the
updated store. No modelled operation raises, so the `except` branch that
calls `mark_url_error` is not reachable here. -/
def process_url (cfg : ScrapeConfig) (db : DB) (incremental : Bool)
    (url : String) : Option Product × DB :=
  match parse_product cfg url with
  | some product =>
    if product.price ≠ 0 ∧ product.price ≥ cfg.minPrice then
      if incremental ∧ ¬ product_changed db product then
        (none, mark_url_done db url "unchanged" cfg.now)
      else
        (some product,
          mark_url_done (update_product_cache db product cfg.now) url "ok" cfg.now)
    else
      (none, mark_url_done db url ("price_below_" ++ ratStr cfg.minPrice) cfg.now)
  | none => (none, mark_url_done db url "no_data" cfg.now)

/-- The worker loop of `scrape_all`: process each URL in turn, collecting
accepted products. (The thread pool completes URLs in a nondeterministic
order; the claims are order-insensitive, and the per-URL store updates
commute with collection, so a sequential fold is a faithful model of the
aggregate outcome.) -/
def runUrls (cfg : ScrapeConfig) (incremental : Bool) (urls : List String)
    (db : DB) : List Product × DB :=
  urls.foldl (fun acc url =>
    let step := process_url cfg acc.2 incremental url
    (acc.1 ++ step.1.toList, step.2)) ([], db)

/-- URL sourcing of `BaseScraper.scrape_all` (lines 373–394), with the store
present: in resume mode reuse pending URLs; if none are pending but some URLs
are registered the whole run returns empty; otherwise (and in non-resume
mode, after a reset in that case) discover and register fresh URLs. Returns
the URL list to process and the store after registration. -/
def source_urls (cfg : ScrapeConfig) (db : DB) (resume : Bool) :
    List String × DB :=
  if resume then
    let pending := get_pending_urls db cfg.sourceName
    if pending ≠ [] then (pending, db)
    else if get_all_urls db cfg.sourceName ≠ [] then ([], db)
    else (cfg.productUrls, register_urls db cfg.productUrls cfg.sourceName)
  else
    (cfg.productUrls,
      register_urls (reset_urls db cfg.sourceName) cfg.productUrls cfg.sourceName)

/-- `BaseScraper.scrape_all` (lines 368–447), with the store present: source
the URLs, apply the test-mode cap (`if limit:` — a falsy `0` is no cap), and
run the workers. The periodic `save_callback` flush writes snapshots of the
same accepted list to the catalog file and does not affect the returned
records or the store, so it is not part of the state here. -/
def scrape_all (cfg : ScrapeConfig) (limit : Option ℕ) (db : DB)
    (incremental : Bool) (resume : Bool) : List Product × DB :=
  let sourced := source_urls cfg db resume
  let urls := match limit with
    | some (n + 1) => sourced.1.take (n + 1)
    | _ => sourced.1
  runUrls cfg incremental urls sourced.2

/-- The three supplier keys accepted by the command line; `SUPPLIERS` maps
each to its configuration (lines 53–72). -/
inductive SupplierKey
  | proesi
  | lojavale
  | seel
  deriving DecidableEq

/-- `SUPPLIERS[key]['name']`: the supplier's display name. -/
def supplierName : SupplierKey → String
  | .proesi => "Proesi"
  | .lojavale => "Loja Vale"
  | .seel => "Seel Distribuidora"

/-- One step of the Python dict building
`category_counts[cat] = category_counts.get(cat, 0) + 1`: a Python dict
iterates in insertion order, so it is an ordered association list. -/
def bumpCount : List (String × ℕ) → String → List (String × ℕ)
  | [], c => [(c, 1)]
  | (k, v) :: rest, c =>
    if k = c then (k, v + 1) :: rest else (k, v) :: bumpCount rest c

/-- The category-count accumulation of `save_products` (lines 1011–1015):
only records with a truthy (`if p.get('category'):` — present and non-empty)
category are counted. -/
def categoryCounts (ps : List Product) : List (String × ℕ) :=
  ps.foldl (fun acc p =>
    match p.category with
    | some c => if c = "" then acc else bumpCount acc c
    | none => acc) []

/-- Models `str.replace('-', ' ')` for the single-character arguments used. -/
def dashToSpace (s : String) : String :=
  ⟨s.data.map (fun c => if c = '-' then ' ' else c)⟩

/-- Models Python `str.title()`: the first character of every run of
alphabetic characters is uppercased, the rest lowercased. -/
def pyTitleAux : List Char → Bool → List Char
  | [], _ => []
  | c :: cs, prevAlpha =>
    (if prevAlpha then c.toLower else c.toUpper) :: pyTitleAux cs c.isAlpha

/-- Models Python `str.title()`. -/
def pyTitle (s : String) : String :=
  ⟨pyTitleAux s.data false⟩

/-- One `{id, name, count}` entry of the catalog's `categories` list. -/
structure CategoryEntry where
  id : String
  name : String
  count : ℕ
  deriving DecidableEq

/-- The catalog document written by `save_products` (lines 1022–1030). -/
structure Catalog where
  lastUpdated : String
  sources : List String
  totalProducts : ℕ
  products : List Product
  categories : List CategoryEntry
  deriving DecidableEq

/-- `save_products` (lines 986–1038): keep the prior catalog's records whose
supplier is not among the touched suppliers' display names, append the fresh
records, sort by name (Python's stable sort), rebuild the category counts
sorted by descending count (stable sort on the negated count key), and emit
the whole document. `oldProducts` is the `products` list of the existing
catalog file (empty when the file is absent or unreadable). -/
def save_products (oldProducts : List Product) (products : List Product)
    (sources : List SupplierKey) (now : String) : Catalog :=
  let touched := sources.map supplierName
  let existing := oldProducts.filter (fun p => p.supplier ∉ touched)
  let allProducts := existing ++ products
  let allProducts :=
    allProducts.insertionSort (fun a b => pyStrLe a.name b.name = true)
  let categories :=
    ((categoryCounts allProducts).insertionSort (fun a b => b.2 ≤ a.2)).map
      (fun e => CategoryEntry.mk e.1 (pyTitle (dashToSpace e.1)) e.2)
  { lastUpdated := now
    sources := (allProducts.map (fun p => p.supplier)).dedup
    totalProducts := allProducts.length
    products := allProducts
    categories := categories }

/-- The catalog-merge iteration of claim C3: each later run reads the
`products` list the previous run wrote. A run is (fresh records, touched
supplier keys, timestamp). -/
def mergeRuns (old : List Product) :
    List (List Product × List SupplierKey × String) → List Product
  | [] => old
  | run :: rest =>
    mergeRuns (save_products old run.1 run.2.1 run.2.2).products rest

/-- Numeric value of a decimal digit character. -/
def digitVal (c : Char) : ℕ := c.toNat - 48

/-- Left inverse of `natChars`. -/
def decodeNat (l : List Char) : ℕ := Nat.ofDigits 10 (l.reverse.map digitVal)

/-- The row-list fold inside `register_urls`. -/
def regFold (supplier : String) (rows : List ProgressRow) (urls : List String) :
    List ProgressRow :=
  urls.foldl (fun rows url =>
    if rows.any (fun r => r.url = url) then rows
    else rows ++ [⟨url, supplier, "pending", none, none⟩]) rows

/-- The key column of an ordered association list. -/
def keysOf (l : List (String × ℕ)) : List String := l.map Prod.fst

/-- The value stored under a key (`0` when absent), reading the first match. -/
def countVal (l : List (String × ℕ)) (c : String) : ℕ :=
  match l.find? (fun e => e.1 = c) with
  | some e => e.2
  | none => 0

/-- One record's contribution to the category-count dict of `save_products`. -/
def catStep (acc : List (String × ℕ)) (p : Product) : List (String × ℕ) :=
  match p.category with
  | some c => if c = "" then acc else bumpCount acc c
  | none => acc

/-! ### Concrete fixtures used by witnesses and counterexamples -/

/-- A product record with the given hashed/engine-relevant fields and default
everything else. -/
def fx (name sku : String) (price : ℚ) (supplier : String := "S")
    (category : Option String := none) (description : Option String := none) :
    Product :=
  { id := sku, sku := sku, name := name, slug := name, price := price,
    priceFormatted := "", sourceUrl := "u-" ++ sku, supplier := supplier,
    category := category, description := description }

/-- A crawl configuration for supplier "S" at time "t1". -/
def mkCfg (minPrice : ℚ) (oracle : String → ℕ → Option String)
    (parsePage : String → Option Product) (urls : List String) : ScrapeConfig :=
  ⟨"S", minPrice, oracle, parsePage, urls, "t1"⟩

/-- C1: a parsed product with a negative price. -/
def c1Neg : Product := fx "Neg" "sk1" (-3)

/-- C1: a crawl with a negative minimum price accepting `c1Neg`. -/
def c1Cfg : ScrapeConfig :=
  mkCfg (-5) (fun _ _ => some "pg")
    (fun t => if t = "pg" then some c1Neg else none) ["u"]

/-- C1/C2: a product priced exactly at the default 100 threshold. -/
def c1At : Product := fx "At" "skat" 100

/-- C1: a crawl at threshold 100 whose only page parses to `c1At`. -/
def c1CfgAt : ScrapeConfig :=
  mkCfg 100 (fun _ _ => some "pg") (fun t => if t = "pg" then some c1At else none)
    ["u"]

/-- C2: the below-threshold product of the spec's 3-URL scenario. -/
def c2Below : Product := fx "Below" "sk2" 50

/-- C2: the valid product of the spec's 3-URL scenario. -/
def c2Ok : Product := fx "Okay" "sk3" 150

/-- C2: the spec's 3-URL scenario — `u1` fails every fetch attempt, `u2`
parses below the 100 threshold, `u3` parses to a valid product. -/
def c2Cfg : ScrapeConfig :=
  mkCfg 100
    (fun url _ => if url = "u1" then none
      else if url = "u2" then some "page2" else some "page3")
    (fun t => if t = "page2" then some c2Below
      else if t = "page3" then some c2Ok else none)
    ["u1", "u2", "u3"]

/-- C6: a product whose description is absent. -/
def c6None : Product := fx "Prod" "sk6" 150

/-- C6/C10: the same record with an empty-string description instead. -/
def c6Empty : Product := { c6None with description := some "" }

/-- C6: store state after `c6None` was accepted and fingerprinted. -/
def c6Db : DB :=
  update_product_cache (register_urls DB.empty ["u"] "S") c6None "t0"

/-- C6: a re-scrape in which the page now parses to `c6Empty`. -/
def c6Cfg : ScrapeConfig :=
  mkCfg 100 (fun _ _ => some "pg")
    (fun t => if t = "pg" then some c6Empty else none) ["u"]

/-- C6: `c6None` with an extra image — no hashed field differs. -/
def c6Img : Product := { c6None with image := some "img" }

/-- C6: same (supplier, sku) as `c6None` but a different name. -/
def c6Other : Product := fx "Prod2" "sk6" 150

/-- C6: store state after `c6Other` was accepted and fingerprinted. -/
def c6DbOther : DB :=
  update_product_cache (register_urls DB.empty ["u"] "S") c6Other "t0"

/-- C4: a store holding one completed row for "x". -/
def c4Db : DB :=
  mark_url_done (register_urls DB.empty ["x"] "S") "x" "ok" "t0"

/-- C5: a product used to exercise the fingerprint comparison. -/
def c5Prod : Product := fx "P5" "sk5" 200

/-- C5: a store whose cache holds `c5Prod`'s fingerprint. -/
def c5Db : DB := update_product_cache DB.empty c5Prod "t0"

/-- C7: a store with two pending URLs for "S". -/
def c7DbPending : DB := register_urls DB.empty ["a", "b"] "S"

/-- C7: a store where every registered URL for "S" is done. -/
def c7DbDone : DB :=
  mark_url_done (mark_url_done c7DbPending "a" "ok" "t0") "b" "ok" "t0"

/-- C7: a crawl configuration discovering URLs c and d. -/
def c7Cfg : ScrapeConfig :=
  mkCfg 100 (fun _ _ => none) (fun _ => none) ["c", "d"]

/-- C3: a record owned by Proesi. -/
def c3Keep : Product := fx "Kept" "sk3k" 300 "Proesi"

/-- C3: a fresh record for Loja Vale. -/
def c3New : Product := fx "Fresh" "sk3f" 400 "Loja Vale"

/-- C8: three records with categories alpha, alpha, beta. -/
def c8Products : List Product :=
  [fx "A1" "s1" 120 "S" (some "alpha"), fx "A2" "s2" 120 "S" (some "alpha"),
    fx "B1" "s3" 120 "S" (some "beta")]

/-- C9: a store holding only a row for URL "a". -/
def c9Db : DB := register_urls DB.empty ["a"] "S"

/-! ### Properties of the price rendering and the content fingerprint -/

theorem natDigitsFuel_eq : ∀ fuel n, n ≤ fuel → natDigitsFuel fuel n = Nat.digits 10 n := by
  intro fuel
  induction fuel with
  | zero =>
    intro n h
    have : n = 0 := Nat.le_zero.mp h
    subst this
    simp [natDigitsFuel]
  | succ f ih =>
    intro n h
    by_cases hn : n = 0
    · subst hn; simp [natDigitsFuel]
    · show (if n = 0 then [] else n % 10 :: natDigitsFuel f (n / 10)) = _
      rw [if_neg hn]
      have hdiv : n / 10 ≤ f := by
        have := Nat.div_lt_self (Nat.pos_of_ne_zero hn) (by norm_num : 1 < 10)
        omega
      rw [ih (n / 10) hdiv,
        Nat.digits_def' (by norm_num : (1:ℕ) < 10) (Nat.pos_of_ne_zero hn)]

theorem natDigits_eq_digits (n : ℕ) : natDigits n = Nat.digits 10 n :=
  natDigitsFuel_eq n n le_rfl

theorem digitVal_digitChar : ∀ d : ℕ, d < 10 → digitVal (Nat.digitChar d) = d := by
  decide

theorem digitChar_isDigit : ∀ d : ℕ, d < 10 → (Nat.digitChar d).isDigit = true := by
  decide

theorem decodeNat_natChars (n : ℕ) : decodeNat (natChars n) = n := by
  unfold decodeNat natChars
  rw [natDigits_eq_digits]
  by_cases h : n = 0
  · subst h; decide
  · simp only [if_neg h, List.reverse_reverse, List.map_map]
    have : ∀ d ∈ Nat.digits 10 n, (digitVal ∘ Nat.digitChar) d = id d := fun d hd =>
      digitVal_digitChar d (Nat.digits_lt_base (by norm_num) hd)
    rw [List.map_congr_left this, List.map_id, Nat.ofDigits_digits]

theorem natChars_injective : Function.Injective natChars := by
  intro a b h
  have h2 := congrArg decodeNat h
  rwa [decodeNat_natChars, decodeNat_natChars] at h2

theorem natChars_isDigit {n : ℕ} : ∀ c ∈ natChars n, c.isDigit = true := by
  intro c hc
  unfold natChars at hc
  rw [natDigits_eq_digits] at hc
  by_cases h : n = 0
  · rw [if_pos h] at hc
    simp only [List.mem_singleton] at hc
    subst hc; decide
  · rw [if_neg h] at hc
    simp only [List.mem_reverse, List.mem_map] at hc
    obtain ⟨d, hd, rfl⟩ := hc
    exact digitChar_isDigit d (Nat.digits_lt_base (by norm_num) hd)

theorem natChars_ne_nil (n : ℕ) : natChars n ≠ [] := by
  unfold natChars
  rw [natDigits_eq_digits]
  by_cases h : n = 0
  · simp [h]
  · rw [if_neg h]
    simp [Nat.digits_ne_nil_iff_ne_zero.mpr h]

/-- Unique decomposition of a list at a separator absent from both heads. -/
theorem append_cons_inj {α : Type _} {a : α} {l1 : List α} :
    ∀ {l1' l2 l2' : List α}, a ∉ l1 → a ∉ l1' →
      l1 ++ a :: l2 = l1' ++ a :: l2' → l1 = l1' ∧ l2 = l2' := by
  induction l1 with
  | nil =>
    intro l1' l2 l2' _ h2 h
    cases l1' with
    | nil => simpa using h
    | cons c t =>
      simp only [List.nil_append, List.cons_append, List.cons.injEq] at h
      exact absurd (h.1 ▸ List.mem_cons_self c t) h2
  | cons b t ih =>
    intro l1' l2 l2' h1 h2 h
    cases l1' with
    | nil =>
      simp only [List.cons_append, List.nil_append, List.cons.injEq] at h
      exact absurd (h.1 ▸ List.mem_cons_self b t) (h.1 ▸ h1)
    | cons c t2 =>
      simp only [List.cons_append, List.cons.injEq] at h
      obtain ⟨rfl, h⟩ := h
      have := ih (fun hm => h1 (List.mem_cons_of_mem b hm))
        (fun hm => h2 (List.mem_cons_of_mem b hm)) h
      exact ⟨by rw [this.1], this.2⟩

theorem bar_not_mem_ratStr (q : ℚ) : '|' ∉ (ratStr q).data := by
  intro hm
  have hdata : (ratStr q).data =
      (if q.num < 0 then ['-'] else []) ++ natChars q.num.natAbs ++
        (if q.den = 1 then [] else '/' :: natChars q.den) := rfl
  rw [hdata] at hm
  simp only [List.mem_append, List.mem_cons] at hm
  rcases hm with (hm | hm) | hm
  · by_cases h : q.num < 0 <;> simp [h] at hm
  · exact absurd (natChars_isDigit _ hm) (by decide)
  · by_cases h : q.den = 1
    · simp [h] at hm
    · rw [if_neg h] at hm
      rcases List.mem_cons.mp hm with h2 | h2
      · exact absurd h2 (by decide)
      · exact absurd (natChars_isDigit _ h2) (by decide)

theorem ratStr_injective : Function.Injective ratStr := by
  intro p q h
  have h2 : (if p.num < 0 then ['-'] else []) ++ natChars p.num.natAbs ++
      (if p.den = 1 then [] else '/' :: natChars p.den) =
      (if q.num < 0 then ['-'] else []) ++ natChars q.num.natAbs ++
      (if q.den = 1 then [] else '/' :: natChars q.den) := congrArg String.data h
  have headDigit : ∀ (n : ℕ) (tail rest : List Char),
      natChars n ++ tail = '-' :: rest → False := by
    intro n tail rest he
    cases hnc : natChars n with
    | nil => exact natChars_ne_nil n hnc
    | cons c t =>
      rw [hnc] at he
      simp only [List.cons_append, List.cons.injEq] at he
      have : c.isDigit = true := natChars_isDigit c (hnc ▸ List.mem_cons_self c t)
      rw [he.1] at this
      exact absurd this (by decide)
  have hsign : (p.num < 0 ↔ q.num < 0) := by
    constructor
    · intro hp
      by_contra hq
      rw [if_pos hp, if_neg hq] at h2
      simp only [List.nil_append, List.append_assoc, List.cons_append,
        List.singleton_append] at h2
      exact headDigit _ _ _ h2.symm
    · intro hq
      by_contra hp
      rw [if_neg hp, if_pos hq] at h2
      simp only [List.nil_append, List.append_assoc, List.cons_append,
        List.singleton_append] at h2
      exact headDigit _ _ _ h2
  have h3 : natChars p.num.natAbs ++
      (if p.den = 1 then [] else '/' :: natChars p.den) =
      natChars q.num.natAbs ++
      (if q.den = 1 then [] else '/' :: natChars q.den) := by
    by_cases hp : p.num < 0
    · have hq := hsign.mp hp
      rw [if_pos hp, if_pos hq] at h2
      simp only [List.append_assoc, List.singleton_append] at h2
      exact (List.cons.inj h2).2
    · have hq := fun hh => hp (hsign.mpr hh)
      rw [if_neg hp, if_neg hq] at h2
      simpa only [List.nil_append, List.append_assoc] using h2
  have slashFree : ∀ n : ℕ, '/' ∉ natChars n := by
    intro n hm
    exact absurd (natChars_isDigit _ hm) (by decide)
  have habs : p.num.natAbs = q.num.natAbs ∧ p.den = q.den := by
    by_cases hdp : p.den = 1 <;> by_cases hdq : q.den = 1
    · rw [if_pos hdp, if_pos hdq, List.append_nil, List.append_nil] at h3
      exact ⟨natChars_injective h3, hdp.trans hdq.symm⟩
    · rw [if_pos hdp, if_neg hdq, List.append_nil] at h3
      have : '/' ∈ natChars p.num.natAbs := by
        rw [h3]
        simp
      exact absurd this (slashFree _)
    · rw [if_neg hdp, if_pos hdq, List.append_nil] at h3
      have : '/' ∈ natChars q.num.natAbs := by
        rw [← h3]
        simp
      exact absurd this (slashFree _)
    · rw [if_neg hdp, if_neg hdq] at h3
      have := append_cons_inj (slashFree _) (slashFree _) h3
      exact ⟨natChars_injective this.1, natChars_injective this.2⟩
  have hnum : p.num = q.num := by
    rcases habs with ⟨ha, _⟩
    by_cases hp : p.num < 0
    · have hq := hsign.mp hp
      omega
    · have hq := fun hh => hp (hsign.mpr hh)
      omega
  exact Rat.ext hnum habs.2

theorem bar_data : ("|" : String).data = ['|'] := rfl

theorem bar_not_mem_pyBoolStr (b : Bool) : '|' ∉ (pyBoolStr b).data := by
  cases b <;> decide

theorem pyBoolStr_injective : ∀ a b : Bool, pyBoolStr a = pyBoolStr b → a = b := by
  decide

/-- The character decomposition of the fingerprint input string. -/
theorem content_hash_data (p : Product) :
    (content_hash p).data =
      p.name.data ++ '|' :: ((ratStr p.price).data ++ '|' ::
        ((pyBoolStr p.inStock).data ++ '|' :: (pyStrOr p.description "").data)) := by
  simp [content_hash, String.data_append, bar_data, List.append_assoc]

/-- The fingerprint depends on nothing but the four hashed fields. -/
theorem content_hash_congr {p q : Product} (hn : p.name = q.name)
    (hp : p.price = q.price) (hs : p.inStock = q.inStock)
    (hd : pyStrOr p.description "" = pyStrOr q.description "") :
    content_hash p = content_hash q := by
  unfold content_hash
  rw [hn, hp, hs, hd]

theorem content_hash_ne_of_name_ne {p q : Product} (hp : q.price = p.price)
    (hs : q.inStock = p.inStock) (hd : q.description = p.description)
    (hn : q.name ≠ p.name) : content_hash q ≠ content_hash p := by
  intro h
  have h2 := congrArg String.data h
  rw [content_hash_data, content_hash_data, hp, hs, hd] at h2
  exact hn (String.ext (List.append_cancel_right h2))

theorem content_hash_ne_of_price_ne {p q : Product} (hn : q.name = p.name)
    (hs : q.inStock = p.inStock) (hd : q.description = p.description)
    (hpr : q.price ≠ p.price) : content_hash q ≠ content_hash p := by
  intro h
  have h2 := congrArg String.data h
  rw [content_hash_data, content_hash_data, hn, hs, hd] at h2
  have h3 := (List.cons.inj (List.append_cancel_left h2)).2
  exact hpr (ratStr_injective (String.ext
    (append_cons_inj (bar_not_mem_ratStr _) (bar_not_mem_ratStr _) h3).1))

theorem content_hash_ne_of_inStock_ne {p q : Product} (hn : q.name = p.name)
    (hp : q.price = p.price) (hd : q.description = p.description)
    (hb : q.inStock ≠ p.inStock) : content_hash q ≠ content_hash p := by
  intro h
  have h2 := congrArg String.data h
  rw [content_hash_data, content_hash_data, hn, hp, hd] at h2
  have h3 := (List.cons.inj (List.append_cancel_left h2)).2
  have h4 := (List.cons.inj (List.append_cancel_left h3)).2
  exact hb (pyBoolStr_injective _ _ (String.ext
    (append_cons_inj (bar_not_mem_pyBoolStr _) (bar_not_mem_pyBoolStr _) h4).1))

theorem content_hash_ne_of_description_ne {p q : Product} (hn : q.name = p.name)
    (hp : q.price = p.price) (hs : q.inStock = p.inStock)
    (hd : pyStrOr q.description "" ≠ pyStrOr p.description "") :
    content_hash q ≠ content_hash p := by
  intro h
  have h2 := congrArg String.data h
  rw [content_hash_data, content_hash_data, hn, hp, hs] at h2
  have h3 := (List.cons.inj (List.append_cancel_left h2)).2
  have h4 := (List.cons.inj (List.append_cancel_left h3)).2
  have h5 := (List.cons.inj (List.append_cancel_left h4)).2
  exact hd (String.ext h5)

/-! ### Store lemmas -/

theorem register_urls_eq_regFold (db : DB) (urls : List String) (supplier : String) :
    register_urls db urls supplier =
      { db with urlsProgress := regFold supplier db.urlsProgress urls } := rfl

theorem regFold_find_of_found {supplier : String} {urls : List String} :
    ∀ {rows : List ProgressRow} {url : String} {row : ProgressRow},
      rows.find? (fun r => r.url = url) = some row →
      (regFold supplier rows urls).find? (fun r => r.url = url) = some row := by
  induction urls with
  | nil => intro rows url row h; exact h
  | cons u us ih =>
    intro rows url row h
    show (regFold supplier
      (if rows.any (fun r => r.url = u) then rows
        else rows ++ [⟨u, supplier, "pending", none, none⟩]) us).find? _ = _
    by_cases ha : rows.any (fun r => r.url = u) = true
    · rw [if_pos ha]; exact ih h
    · rw [if_neg ha]
      exact ih (by rw [List.find?_append, h]; rfl)

theorem regFold_find_of_absent {supplier : String} {urls : List String} :
    ∀ {rows : List ProgressRow} {url : String},
      rows.find? (fun r => r.url = url) = none → url ∈ urls →
      (regFold supplier rows urls).find? (fun r => r.url = url) =
        some ⟨url, supplier, "pending", none, none⟩ := by
  induction urls with
  | nil => intro rows url _ hm; cases hm
  | cons u us ih =>
    intro rows url h hm
    show (regFold supplier
      (if rows.any (fun r => r.url = u) then rows
        else rows ++ [⟨u, supplier, "pending", none, none⟩]) us).find? _ = _
    by_cases he : u = url
    · subst he
      have ha : rows.any (fun r => r.url = u) = false := by
        rw [List.any_eq_false]
        intro r hr
        exact (List.find?_eq_none.mp h) r hr
      rw [if_neg (by rw [ha]; exact Bool.false_ne_true)]
      apply regFold_find_of_found
      rw [List.find?_append, h, Option.none_or]
      rw [List.find?_cons_of_pos _ (by simp)]
    · have hm2 : url ∈ us := by
        rcases List.mem_cons.mp hm with h1 | h1
        · exact absurd h1.symm he
        · exact h1
      by_cases ha : rows.any (fun r => r.url = u) = true
      · rw [if_pos ha]; exact ih h hm2
      · rw [if_neg ha]
        apply ih _ hm2
        rw [List.find?_append, h, Option.none_or]
        simp only [List.find?]
        rw [decide_eq_false (by simpa using he)]

theorem regFold_find_of_not_listed {supplier : String} {urls : List String} :
    ∀ {rows : List ProgressRow} {url : String}, url ∉ urls →
      (regFold supplier rows urls).find? (fun r => r.url = url) =
        rows.find? (fun r => r.url = url) := by
  induction urls with
  | nil => intro rows url _; rfl
  | cons u us ih =>
    intro rows url hm
    have hu : u ≠ url := fun he => hm (he ▸ List.mem_cons_self u us)
    have hus : url ∉ us := fun h2 => hm (List.mem_cons_of_mem u h2)
    show (regFold supplier
      (if rows.any (fun r => r.url = u) then rows
        else rows ++ [⟨u, supplier, "pending", none, none⟩]) us).find? _ = _
    by_cases ha : rows.any (fun r => r.url = u) = true
    · rw [if_pos ha]; exact ih hus
    · rw [if_neg ha, ih hus, List.find?_append]
      simp only [List.find?]
      rw [decide_eq_false (by simpa using hu)]
      cases rows.find? (fun r => r.url = url) <;> rfl

/-- An `UPDATE ... WHERE url = ?` with no matching row is the identity. -/
theorem update_rows_id {rows : List ProgressRow} {url : String}
    (f : ProgressRow → ProgressRow)
    (h : rows.find? (fun r => r.url = url) = none) :
    rows.map (fun r => if r.url = url then f r else r) = rows := by
  have h2 := List.find?_eq_none.mp h
  calc rows.map (fun r => if r.url = url then f r else r)
      = rows.map id := List.map_congr_left (fun r hr => by
        simp only [id]
        rw [if_neg (by simpa using h2 r hr)])
    _ = rows := List.map_id rows

/-! ### Engine lemmas -/

theorem fetch_eq_none {cfg : ScrapeConfig} {url : String}
    (h : ∀ a, a < 3 → cfg.fetchOracle url a = none) : fetch cfg url = none := by
  unfold fetch
  show fetchFrom cfg.fetchOracle url 0 3 = none
  unfold fetchFrom
  rw [h 0 (by norm_num)]
  unfold fetchFrom
  rw [h 1 (by norm_num)]
  unfold fetchFrom
  rw [h 2 (by norm_num)]
  rfl

theorem process_url_of_parse_none {cfg : ScrapeConfig} {db : DB}
    {incremental : Bool} {url : String}
    (h : parse_product cfg url = none) :
    process_url cfg db incremental url =
      (none, mark_url_done db url "no_data" cfg.now) := by
  unfold process_url
  rw [h]

theorem process_url_accept {cfg : ScrapeConfig} {db : DB} {incremental : Bool}
    {url : String} {p : Product} (hp : parse_product cfg url = some p)
    (hpr : p.price ≠ 0 ∧ p.price ≥ cfg.minPrice)
    (hchg : incremental = false ∨ product_changed db p = true) :
    process_url cfg db incremental url =
      (some p, mark_url_done (update_product_cache db p cfg.now) url "ok" cfg.now) := by
  unfold process_url
  simp only [hp]
  rw [if_pos hpr, if_neg]
  rintro ⟨hinc, hnc⟩
  rcases hchg with h | h
  · rw [h] at hinc; cases hinc
  · rw [h] at hnc; exact hnc rfl

theorem process_url_unchanged {cfg : ScrapeConfig} {db : DB} {url : String}
    {p : Product} (hp : parse_product cfg url = some p)
    (hpr : p.price ≠ 0 ∧ p.price ≥ cfg.minPrice)
    (hchg : product_changed db p = false) :
    process_url cfg db true url =
      (none, mark_url_done db url "unchanged" cfg.now) := by
  unfold process_url
  simp only [hp]
  rw [if_pos hpr, if_pos]
  exact ⟨by simp, by simp [hchg]⟩

theorem process_url_below {cfg : ScrapeConfig} {db : DB} {incremental : Bool}
    {url : String} {p : Product} (hp : parse_product cfg url = some p)
    (hpr : ¬(p.price ≠ 0 ∧ p.price ≥ cfg.minPrice)) :
    process_url cfg db incremental url =
      (none, mark_url_done db url ("price_below_" ++ ratStr cfg.minPrice) cfg.now) := by
  unfold process_url
  simp only [hp]
  rw [if_neg hpr]

/-- Every product returned by `process_url` passed the parse and the
minimum-price filter. -/
theorem process_url_some {cfg : ScrapeConfig} {db : DB} {incremental : Bool}
    {url : String} {p : Product}
    (h : (process_url cfg db incremental url).1 = some p) :
    parse_product cfg url = some p ∧ p.price ≠ 0 ∧ p.price ≥ cfg.minPrice := by
  unfold process_url at h
  cases hpp : parse_product cfg url with
  | none => rw [hpp] at h; cases h
  | some q =>
    simp only [hpp] at h
    by_cases h1 : q.price ≠ 0 ∧ q.price ≥ cfg.minPrice
    · rw [if_pos h1] at h
      by_cases h2 : incremental ∧ ¬ product_changed db q
      · rw [if_pos h2] at h; cases h
      · rw [if_neg h2] at h
        cases h
        exact ⟨rfl, h1⟩
    · rw [if_neg h1] at h; cases h

/-- Membership in the accepted list of the worker fold comes from the initial
accumulator or from a `process_url` acceptance. -/
theorem mem_runUrls_fold {cfg : ScrapeConfig} {incremental : Bool} :
    ∀ {urls : List String} {acc : List Product × DB} {p : Product},
      p ∈ (urls.foldl (fun acc url =>
        let step := process_url cfg acc.2 incremental url
        (acc.1 ++ step.1.toList, step.2)) acc).1 →
      p ∈ acc.1 ∨ ∃ url db1, (process_url cfg db1 incremental url).1 = some p := by
  intro urls
  induction urls with
  | nil => intro acc p h; exact Or.inl h
  | cons u us ih =>
    intro acc p h
    rcases ih h with h1 | h1
    · rcases List.mem_append.mp h1 with h2 | h2
      · exact Or.inl h2
      · refine Or.inr ⟨u, acc.2, ?_⟩
        cases ho : (process_url cfg acc.2 incremental u).1 with
        | none => rw [ho] at h2; cases h2
        | some q =>
          rw [ho] at h2
          rcases List.mem_singleton.mp h2 with rfl
          rfl
    · exact Or.inr h1

/-! ### Category-count lemmas -/

theorem bumpCount_cons_self (k : String) (v : ℕ) (rest : List (String × ℕ)) :
    bumpCount ((k, v) :: rest) k = (k, v + 1) :: rest := by
  simp [bumpCount]

theorem bumpCount_cons_other {k c : String} (hk : k ≠ c) (v : ℕ)
    (rest : List (String × ℕ)) :
    bumpCount ((k, v) :: rest) c = (k, v) :: bumpCount rest c := by
  simp [bumpCount, hk]

theorem mem_keysOf_bumpCount {l : List (String × ℕ)} {c d : String} :
    d ∈ keysOf (bumpCount l c) ↔ d ∈ keysOf l ∨ d = c := by
  induction l with
  | nil => simp [bumpCount, keysOf]
  | cons e rest ih =>
    obtain ⟨k, v⟩ := e
    by_cases hk : k = c
    · subst hk
      rw [bumpCount_cons_self]
      simp only [keysOf, List.map_cons, List.mem_cons]
      tauto
    · rw [bumpCount_cons_other hk]
      simp only [keysOf, List.map_cons, List.mem_cons]
      rw [show (bumpCount rest c).map Prod.fst = keysOf (bumpCount rest c) from rfl,
        show rest.map Prod.fst = keysOf rest from rfl, ih]
      tauto

theorem nodup_keysOf_bumpCount {l : List (String × ℕ)} {c : String}
    (h : (keysOf l).Nodup) : (keysOf (bumpCount l c)).Nodup := by
  induction l with
  | nil => simp [bumpCount, keysOf]
  | cons e rest ih =>
    obtain ⟨k, v⟩ := e
    rw [keysOf, List.map_cons, List.nodup_cons] at h
    by_cases hk : k = c
    · subst hk
      rw [bumpCount_cons_self]
      rw [keysOf, List.map_cons, List.nodup_cons]
      exact h
    · rw [bumpCount_cons_other hk]
      rw [keysOf, List.map_cons, List.nodup_cons]
      refine ⟨?_, ih h.2⟩
      intro hmem
      rcases mem_keysOf_bumpCount.mp hmem with h2 | h2
      · exact h.1 h2
      · exact hk h2

theorem countVal_bumpCount_self (l : List (String × ℕ)) (c : String) :
    countVal (bumpCount l c) c = countVal l c + 1 := by
  induction l with
  | nil => simp [bumpCount, countVal, List.find?]
  | cons e rest ih =>
    obtain ⟨k, v⟩ := e
    by_cases hk : k = c
    · subst hk
      rw [bumpCount_cons_self]
      simp [countVal, List.find?]
    · rw [bumpCount_cons_other hk]
      unfold countVal
      simp only [List.find?, decide_eq_false hk]
      exact ih

theorem countVal_bumpCount_other {l : List (String × ℕ)} {c d : String}
    (h : d ≠ c) : countVal (bumpCount l d) c = countVal l c := by
  induction l with
  | nil => simp [bumpCount, countVal, List.find?, decide_eq_false h]
  | cons e rest ih =>
    obtain ⟨k, v⟩ := e
    by_cases hk : k = d
    · subst hk
      rw [bumpCount_cons_self]
      unfold countVal
      simp only [List.find?, decide_eq_false h]
    · rw [bumpCount_cons_other hk]
      unfold countVal
      simp only [List.find?]
      cases hdec : decide (k = c)
      · exact ih
      · rfl

theorem countVal_of_mem_nodup {l : List (String × ℕ)}
    (hnd : (keysOf l).Nodup) {k : String} {v : ℕ} (hm : (k, v) ∈ l) :
    countVal l k = v := by
  induction l with
  | nil => cases hm
  | cons e rest ih =>
    obtain ⟨k0, v0⟩ := e
    rw [keysOf, List.map_cons, List.nodup_cons] at hnd
    rcases List.mem_cons.mp hm with h | h
    · obtain ⟨rfl, rfl⟩ := Prod.mk.injEq .. ▸ h
      unfold countVal
      simp [List.find?]
    · by_cases hk : k0 = k
      · subst hk
        exact absurd (List.mem_map.mpr ⟨(k0, v), h, rfl⟩) hnd.1
      · unfold countVal
        simp only [List.find?, decide_eq_false hk]
        exact ih hnd.2 h

theorem mem_keysOf_catStep {acc : List (String × ℕ)} {p : Product} {c : String} :
    c ∈ keysOf (catStep acc p) ↔
      c ∈ keysOf acc ∨ (p.category = some c ∧ c ≠ "") := by
  rcases hcat : p.category with _ | e
  · simp [catStep, hcat]
  · by_cases he : e = ""
    · subst he
      simp only [catStep, hcat, if_pos rfl]
      constructor
      · exact Or.inl
      · rintro (h | ⟨he2, hne⟩)
        · exact h
        · exact absurd (Option.some.inj he2).symm hne
    · simp only [catStep, hcat, if_neg he]
      rw [mem_keysOf_bumpCount]
      constructor
      · rintro (h | rfl)
        · exact Or.inl h
        · exact Or.inr ⟨rfl, he⟩
      · rintro (h | ⟨he2, hne⟩)
        · exact Or.inl h
        · exact Or.inr (Option.some.inj he2).symm

theorem mem_keysOf_foldl_catStep :
    ∀ (ps : List Product) (acc : List (String × ℕ)) (c : String),
      c ∈ keysOf (ps.foldl catStep acc) ↔
        c ∈ keysOf acc ∨ ∃ p ∈ ps, p.category = some c ∧ c ≠ "" := by
  intro ps
  induction ps with
  | nil => intro acc c; simp
  | cons p ps ih =>
    intro acc c
    rw [List.foldl_cons, ih, mem_keysOf_catStep]
    constructor
    · rintro ((h | h) | ⟨q, hq, hqc⟩)
      · exact Or.inl h
      · exact Or.inr ⟨p, List.mem_cons_self p ps, h⟩
      · exact Or.inr ⟨q, List.mem_cons_of_mem p hq, hqc⟩
    · rintro (h | ⟨q, hq, hqc⟩)
      · exact Or.inl (Or.inl h)
      · rcases List.mem_cons.mp hq with rfl | hq2
        · exact Or.inl (Or.inr hqc)
        · exact Or.inr ⟨q, hq2, hqc⟩

theorem nodup_keysOf_foldl_catStep :
    ∀ (ps : List Product) (acc : List (String × ℕ)),
      (keysOf acc).Nodup → (keysOf (ps.foldl catStep acc)).Nodup := by
  intro ps
  induction ps with
  | nil => intro acc h; exact h
  | cons p ps ih =>
    intro acc h
    rw [List.foldl_cons]
    refine ih _ ?_
    rcases hcat : p.category with _ | e
    · simpa [catStep, hcat] using h
    · by_cases he : e = ""
      · subst he; simpa [catStep, hcat] using h
      · simp only [catStep, hcat, if_neg he]
        exact nodup_keysOf_bumpCount h

theorem countVal_foldl_catStep {c : String} (hc : c ≠ "") :
    ∀ (ps : List Product) (acc : List (String × ℕ)),
      countVal (ps.foldl catStep acc) c =
        countVal acc c + ps.countP (fun p => p.category = some c) := by
  intro ps
  induction ps with
  | nil => intro acc; simp
  | cons p ps ih =>
    intro acc
    rw [List.foldl_cons, ih, List.countP_cons]
    rcases hcat : p.category with _ | e
    · simp [catStep, hcat]
    · by_cases he : e = ""
      · subst he
        have hne : ¬(some "" = some c) := fun hh => hc (Option.some.inj hh).symm
        simp [catStep, hcat, hne]
      · by_cases hec : e = c
        · subst hec
          simp only [catStep, hcat, if_neg he, countVal_bumpCount_self]
          simp only [decide_eq_true_eq, if_true, eq_self_iff_true]
          omega
        · have hne : ¬(some e = some c) := fun hh => hec (Option.some.inj hh)
          simp only [catStep, hcat, if_neg he, countVal_bumpCount_other hec]
          simp [hne]

/-! ### Further engine lemmas -/

theorem parse_product_none_of_fetch {cfg : ScrapeConfig} {url : String}
    (h : fetch cfg url = none) : parse_product cfg url = none := by
  unfold parse_product
  rw [h]

theorem source_urls_pending {cfg : ScrapeConfig} {db : DB}
    (h : get_pending_urls db cfg.sourceName ≠ []) :
    source_urls cfg db true = (get_pending_urls db cfg.sourceName, db) := by
  unfold source_urls
  rw [if_pos rfl, if_pos h]

theorem source_urls_all_done {cfg : ScrapeConfig} {db : DB}
    (h1 : get_pending_urls db cfg.sourceName = [])
    (h2 : get_all_urls db cfg.sourceName ≠ []) :
    source_urls cfg db true = ([], db) := by
  unfold source_urls
  rw [if_pos rfl, if_neg (by simp [h1]), if_pos h2]

theorem source_urls_fresh {cfg : ScrapeConfig} {db : DB}
    (h1 : get_pending_urls db cfg.sourceName = [])
    (h2 : get_all_urls db cfg.sourceName = []) :
    source_urls cfg db true =
      (cfg.productUrls, register_urls db cfg.productUrls cfg.sourceName) := by
  unfold source_urls
  rw [if_pos rfl, if_neg (by simp [h1]), if_neg (by simp [h2])]

theorem scrape_all_no_limit (cfg : ScrapeConfig) (db : DB)
    (incremental resume : Bool) :
    scrape_all cfg none db incremental resume =
      runUrls cfg incremental (source_urls cfg db resume).1
        (source_urls cfg db resume).2 := rfl

/-- Every record returned by `scrape_all` passed the minimum-price filter. -/
theorem scrape_all_mem {cfg : ScrapeConfig} {limit : Option ℕ} {db : DB}
    {incremental resume : Bool} {p : Product}
    (h : p ∈ (scrape_all cfg limit db incremental resume).1) :
    p.price ≠ 0 ∧ p.price ≥ cfg.minPrice := by
  unfold scrape_all runUrls at h
  rcases mem_runUrls_fold h with h1 | h1
  · cases h1
  · obtain ⟨url, db1, h2⟩ := h1
    exact (process_url_some h2).2

/-- After `update_product_cache`, the cache row for the product's
(supplier, sku) pair is exactly the freshly written one. -/
theorem get_cached_update (db : DB) (q : Product) (now : String) :
    get_cached_product (update_product_cache db q now) q.supplier q.sku =
      some ⟨q.id, q.supplier, q.sku, q.price, content_hash q, now, q.sourceUrl⟩ := by
  unfold get_cached_product update_product_cache
  rw [List.find?_append]
  have hnone : (db.productsCache.filter (fun r =>
      ¬(r.id = q.id ∨ (r.supplier = q.supplier ∧ r.sku = q.sku)))).find?
      (fun r => r.supplier = q.supplier ∧ r.sku = q.sku) = none := by
    rw [List.find?_eq_none]
    intro r hr
    have h2 := (List.mem_filter.mp hr).2
    simp only [decide_eq_true_eq] at h2 ⊢
    exact fun hc => h2 (Or.inr hc)
  rw [hnone, Option.none_or]
  simp [List.find?]

/-! ### Claim theorems -/

/-- Claim C1, counterexample: with the minimum-price filter set to `-5`, a
parsed product priced `-3` (nonzero, above the threshold) is accepted by the
crawl engine and returned from `scrape_all`, yet its price is not `> 0` —
refuting the claim that every accepted record has `price > 0` for every
`minPrice`. -/
theorem spec_C1_counterexample :
    c1Neg ∈ (scrape_all c1Cfg none DB.empty false false).1 ∧
    parse_product c1Cfg "u" = some c1Neg ∧
    c1Cfg.minPrice = -5 ∧ c1Neg.price = -3 ∧ ¬(0 < c1Neg.price) := by
  refine ⟨by decide, by decide, by decide, by decide, by decide⟩

/-- Claim C1, amended: every record accepted by the crawl engine (returned
from `scrape_all`) has a nonzero price that is at least `minPrice`; whenever
`minPrice ≥ 0` (in particular for the CLI default of 100) its price is
strictly positive. A parsed product priced exactly at `minPrice` is accepted
in non-incremental mode (a parsed price is never zero), and one priced
strictly below `minPrice` is never returned and has its URL marked done with
the price tag. -/
theorem spec_C1_amended :
    (∀ (cfg : ScrapeConfig) (limit : Option ℕ) (db : DB) (inc res : Bool)
        (p : Product), p ∈ (scrape_all cfg limit db inc res).1 →
          p.price ≠ 0 ∧ cfg.minPrice ≤ p.price ∧
            (0 ≤ cfg.minPrice → 0 < p.price))
    ∧ (∀ (cfg : ScrapeConfig) (db : DB) (url : String) (p : Product),
        parse_product cfg url = some p → p.price = cfg.minPrice →
          p.price ≠ 0 →
          process_url cfg db false url =
            (some p,
              mark_url_done (update_product_cache db p cfg.now) url "ok" cfg.now))
    ∧ (∀ (cfg : ScrapeConfig) (db : DB) (inc : Bool) (url : String)
        (p : Product), parse_product cfg url = some p →
          p.price < cfg.minPrice →
          process_url cfg db inc url =
            (none,
              mark_url_done db url ("price_below_" ++ ratStr cfg.minPrice)
                cfg.now)) := by
  refine ⟨?_, ?_, ?_⟩
  · intro cfg limit db inc res p h
    obtain ⟨h1, h2⟩ := scrape_all_mem h
    exact ⟨h1, h2, fun h0 => lt_of_le_of_ne (le_trans h0 h2) (Ne.symm h1)⟩
  · intro cfg db url p hp he hne
    exact process_url_accept hp ⟨hne, le_of_eq he.symm⟩ (Or.inl rfl)
  · intro cfg db inc url p hp hlt
    exact process_url_below hp (fun hc => absurd hc.2 (not_le.mpr hlt))

/-- Claim C1, witness: the amended theorem applied to a concrete crawl whose
only page parses to a product priced exactly at the threshold 100. -/
theorem spec_C1_witness :
    (c1At.price ≠ 0 ∧ c1CfgAt.minPrice ≤ c1At.price ∧
      (0 ≤ c1CfgAt.minPrice → 0 < c1At.price)) ∧
    process_url c1CfgAt DB.empty false "u" =
      (some c1At,
        mark_url_done (update_product_cache DB.empty c1At "t1") "u" "ok" "t1") :=
  ⟨spec_C1_amended.1 c1CfgAt none DB.empty false false c1At (by decide),
    spec_C1_amended.2.1 c1CfgAt DB.empty "u" c1At (by decide) (by decide)
      (by decide)⟩

/-- Claim C2, counterexample: in the spec's 3-URL scenario (URL `u1` fails
every fetch attempt, `u2` parses below the threshold, `u3` parses validly),
`scrape_all` indeed returns exactly one record, but the exhausted-retries URL
`u1` ends with status `"done"` and result tag `"no_data"` — not status
`"error"` — and the Progress Store shows `0` error entries, not `1`: `fetch`
swallows the request exceptions and returns `None`, which `_process_url`
cannot distinguish from a parse failure. -/
theorem spec_C2_counterexample :
    (scrape_all c2Cfg none DB.empty false false).1 = [c2Ok] ∧
    lookupUrl (scrape_all c2Cfg none DB.empty false false).2 "u1" =
      some ⟨"u1", "S", "done", some "t1", some "no_data"⟩ ∧
    (get_progress (scrape_all c2Cfg none DB.empty false false).2 "S").errors
      = 0 ∧
    ¬((get_progress (scrape_all c2Cfg none DB.empty false false).2 "S").errors
      = 1) := by
  refine ⟨by decide, by decide, by decide, by decide⟩

/-- Claim C2, amended: a URL whose page fetch fails on all 3 attempts does
not abort the run: `_process_url` returns no record and marks the URL
`done` with result tag `"no_data"` (identical to a parse failure, since the
exhausted `fetch` returns `None`). In the spec's 3-URL scenario `scrape_all`
returns exactly 1 accepted record and the Progress Store shows 0 error
entries and 3 done entries, tagged `no_data`, `price_below_100` and `ok`. -/
theorem spec_C2_amended :
    (∀ (cfg : ScrapeConfig) (db : DB) (inc : Bool) (url : String),
        (∀ a, a < 3 → cfg.fetchOracle url a = none) →
          process_url cfg db inc url =
            (none, mark_url_done db url "no_data" cfg.now))
    ∧ (scrape_all c2Cfg none DB.empty false false).1.length = 1
    ∧ get_progress (scrape_all c2Cfg none DB.empty false false).2 "S" =
        ⟨3, 3, 0, 0⟩
    ∧ lookupUrl (scrape_all c2Cfg none DB.empty false false).2 "u1" =
        some ⟨"u1", "S", "done", some "t1", some "no_data"⟩
    ∧ lookupUrl (scrape_all c2Cfg none DB.empty false false).2 "u2" =
        some ⟨"u2", "S", "done", some "t1", some "price_below_100"⟩
    ∧ lookupUrl (scrape_all c2Cfg none DB.empty false false).2 "u3" =
        some ⟨"u3", "S", "done", some "t1", some "ok"⟩ := by
  refine ⟨?_, by decide, by decide, by decide, by decide, by decide⟩
  intro cfg db inc url h
  exact process_url_of_parse_none (parse_product_none_of_fetch (fetch_eq_none h))

/-- Claim C2, witness: the amended per-URL statement applied to a concrete
configuration whose oracle fails every attempt. -/
theorem spec_C2_witness :
    process_url c7Cfg DB.empty false "z" =
      (none, mark_url_done DB.empty "z" "no_data" "t1") :=
  spec_C2_amended.1 c7Cfg DB.empty false "z" (fun _ _ => rfl)

/-- Claim C3, confirmed: the catalog merge is supplier-scoped. Every record
of the prior catalog whose supplier is not among the touched suppliers'
display names appears — as the identical record value — in the merged
`products` list, and this persists across any sequence of merge runs none of
which touches that record's supplier. -/
theorem spec_C3 :
    (∀ (old new : List Product) (srcs : List SupplierKey) (now : String)
        (r : Product), r ∈ old → r.supplier ∉ srcs.map supplierName →
          r ∈ (save_products old new srcs now).products)
    ∧ (∀ (runs : List (List Product × List SupplierKey × String))
        (old : List Product) (r : Product), r ∈ old →
          (∀ run ∈ runs, r.supplier ∉ run.2.1.map supplierName) →
          r ∈ mergeRuns old runs) := by
  have single : ∀ (old new : List Product) (srcs : List SupplierKey)
      (now : String) (r : Product), r ∈ old →
      r.supplier ∉ srcs.map supplierName →
      r ∈ (save_products old new srcs now).products := by
    intro old new srcs now r hr hs
    show r ∈ ((old.filter (fun p => p.supplier ∉ srcs.map supplierName)) ++
        new).insertionSort (fun a b => pyStrLe a.name b.name = true)
    rw [List.mem_insertionSort]
    exact List.mem_append.mpr (Or.inl (List.mem_filter.mpr
      ⟨hr, by simpa using hs⟩))
  refine ⟨single, ?_⟩
  intro runs
  induction runs with
  | nil => intro old r hr _; exact hr
  | cons run rest ih =>
    intro old r hr hall
    exact ih (save_products old run.1 run.2.1 run.2.2).products r
      (single old run.1 run.2.1 run.2.2 r hr
        (hall run (List.mem_cons_self run rest)))
      (fun q hq => hall q (List.mem_cons_of_mem run hq))

/-- Claim C3, witness: a Proesi record survives a merge touching Loja Vale
and a further merge touching Seel Distribuidora. -/
theorem spec_C3_witness :
    c3Keep ∈ (save_products [c3Keep] [c3New] [SupplierKey.lojavale] "t2").products
    ∧ c3Keep ∈ mergeRuns [c3Keep]
        [([c3New], [SupplierKey.lojavale], "t2"), ([], [SupplierKey.seel], "t3")] :=
  ⟨spec_C3.1 [c3Keep] [c3New] [SupplierKey.lojavale] "t2" c3Keep (by decide)
    (by decide),
   spec_C3.2 [([c3New], [SupplierKey.lojavale], "t2"),
      ([], [SupplierKey.seel], "t3")] [c3Keep] c3Keep (by decide) (by decide)⟩

/-- Claim C4, confirmed: `register_urls` is idempotent. A URL already present
in the progress table keeps its exact row (any status); a URL in the input
that is absent from the table is inserted with status `pending` and empty
`processed_at`/`result`; URLs outside the input are untouched; the product
cache is untouched. -/
theorem spec_C4 :
    ∀ (db : DB) (urls : List String) (supplier : String),
      (∀ (url : String) (row : ProgressRow), lookupUrl db url = some row →
        lookupUrl (register_urls db urls supplier) url = some row)
      ∧ (∀ url : String, url ∈ urls → lookupUrl db url = none →
          lookupUrl (register_urls db urls supplier) url =
            some ⟨url, supplier, "pending", none, none⟩)
      ∧ (∀ url : String, url ∉ urls →
          lookupUrl (register_urls db urls supplier) url = lookupUrl db url)
      ∧ (register_urls db urls supplier).productsCache = db.productsCache := by
  intro db urls supplier
  refine ⟨?_, ?_, ?_, rfl⟩
  · intro url row h
    exact regFold_find_of_found h
  · intro url hm h
    exact regFold_find_of_absent h hm
  · intro url hm
    exact regFold_find_of_not_listed hm

/-- Claim C4, witness: re-registering URL "x" (already done) together with a
fresh URL "y" leaves the done row identical and inserts "y" as pending. -/
theorem spec_C4_witness :
    lookupUrl (register_urls c4Db ["x", "y"] "S") "x" =
      some ⟨"x", "S", "done", some "t0", some "ok"⟩ ∧
    lookupUrl (register_urls c4Db ["x", "y"] "S") "y" =
      some ⟨"y", "S", "pending", none, none⟩ :=
  ⟨(spec_C4 c4Db ["x", "y"] "S").1 "x" ⟨"x", "S", "done", some "t0", some "ok"⟩
      (by decide),
   (spec_C4 c4Db ["x", "y"] "S").2.1 "y" (by decide) (by decide)⟩

/-- Claim C5, confirmed: `product_changed` is true exactly when no cached
fingerprint exists for the record's (supplier, sku) pair or the cached hash
differs from the freshly computed `content_hash`; equivalently it is false
exactly when a cached row exists whose hash equals the fresh one. -/
theorem spec_C5 :
    ∀ (db : DB) (p : Product),
      (product_changed db p = true ↔
        get_cached_product db p.supplier p.sku = none ∨
          ∃ row, get_cached_product db p.supplier p.sku = some row ∧
            row.content_hash ≠ content_hash p)
      ∧ (product_changed db p = false ↔
        ∃ row, get_cached_product db p.supplier p.sku = some row ∧
          row.content_hash = content_hash p) := by
  intro db p
  unfold product_changed
  cases hcc : get_cached_product db p.supplier p.sku with
  | none =>
    constructor
    · simp
    · simp
  | some row =>
    constructor
    · simp only [decide_eq_true_eq]
      constructor
      · intro h
        exact Or.inr ⟨row, rfl, h⟩
      · rintro (h | ⟨row2, h2, h3⟩)
        · cases h
        · cases Option.some.inj h2
          exact h3
    · simp only [decide_eq_false_iff_not, not_not]
      constructor
      · intro h
        exact ⟨row, rfl, h⟩
      · rintro ⟨row2, h2, h3⟩
        cases Option.some.inj h2
        exact h3

/-- Claim C5, witness: the iff applied to a store caching exactly the
record's fingerprint (unchanged) and to the empty store (changed). -/
theorem spec_C5_witness :
    product_changed c5Db c5Prod = false ∧
    product_changed DB.empty c5Prod = true :=
  ⟨(spec_C5 c5Db c5Prod).2.mpr
      ⟨⟨"sk5", "S", "sk5", 200, content_hash c5Prod, "t0", "u-sk5"⟩,
        by decide, rfl⟩,
   (spec_C5 DB.empty c5Prod).1.mpr (Or.inl (by decide))⟩

/-- Claim C6, counterexample: changing the description field from `None` to
the empty string `""` is a change to one of the four hashed fields, yet the
fingerprint is unchanged (`description or ''` erases the difference), so an
incremental re-scrape of the changed record is skipped and marked
`"unchanged"` instead of being re-accepted — refuting "a change to any one
of the four fields causes re-acceptance". -/
theorem spec_C6_counterexample :
    c6Empty.description ≠ c6None.description ∧
    c6Empty.name = c6None.name ∧ c6Empty.price = c6None.price ∧
    c6Empty.inStock = c6None.inStock ∧
    content_hash c6Empty = content_hash c6None ∧
    parse_product c6Cfg "u" = some c6Empty ∧
    process_url c6Cfg c6Db true "u" =
      (none, mark_url_done c6Db "u" "unchanged" "t1") := by
  refine ⟨by decide, by decide, by decide, by decide, by decide, by decide,
    by decide⟩

/-- Claim C6, amended: the fingerprint is a deterministic function of
exactly the four fields name, price, inStock and effective description
(`description or ''`): records agreeing on those four fields hash equally
whatever their other fields, and in incremental mode an unchanged
fingerprint is skipped with an `"unchanged"` mark while a changed one is
re-accepted. Changing only the name, only the price, only the stock flag, or
only the effective description (so with `None` and `""` identified) changes
the fingerprint. -/
theorem spec_C6_amended :
    (∀ p q : Product, p.name = q.name → p.price = q.price →
        p.inStock = q.inStock → p.description = q.description →
        content_hash p = content_hash q)
    ∧ (∀ (cfg : ScrapeConfig) (db : DB) (url : String) (p : Product),
        parse_product cfg url = some p → p.price ≠ 0 →
        cfg.minPrice ≤ p.price → product_changed db p = false →
        process_url cfg db true url =
          (none, mark_url_done db url "unchanged" cfg.now))
    ∧ (∀ (cfg : ScrapeConfig) (db : DB) (url : String) (p : Product),
        parse_product cfg url = some p → p.price ≠ 0 →
        cfg.minPrice ≤ p.price → product_changed db p = true →
        process_url cfg db true url =
          (some p,
            mark_url_done (update_product_cache db p cfg.now) url "ok" cfg.now))
    ∧ (∀ (p : Product) (n2 : String), n2 ≠ p.name →
        content_hash { p with name := n2 } ≠ content_hash p)
    ∧ (∀ (p : Product) (pr2 : ℚ), pr2 ≠ p.price →
        content_hash { p with price := pr2 } ≠ content_hash p)
    ∧ (∀ (p : Product) (b2 : Bool), b2 ≠ p.inStock →
        content_hash { p with inStock := b2 } ≠ content_hash p)
    ∧ (∀ (p : Product) (d2 : Option String),
        pyStrOr d2 "" ≠ pyStrOr p.description "" →
        content_hash { p with description := d2 } ≠ content_hash p) := by
  refine ⟨?_, ?_, ?_, ?_, ?_, ?_, ?_⟩
  · intro p q hn hp hs hd
    exact content_hash_congr hn hp hs (by rw [hd])
  · intro cfg db url p hp hne hge hch
    exact process_url_unchanged hp ⟨hne, hge⟩ hch
  · intro cfg db url p hp hne hge hch
    exact process_url_accept hp ⟨hne, hge⟩ (Or.inr hch)
  · intro p n2 hn
    exact content_hash_ne_of_name_ne rfl rfl rfl hn
  · intro p pr2 hpr
    exact content_hash_ne_of_price_ne rfl rfl rfl hpr
  · intro p b2 hb
    exact content_hash_ne_of_inStock_ne rfl rfl rfl hb
  · intro p d2 hd
    exact content_hash_ne_of_description_ne rfl rfl rfl hd

/-- Claim C6, witness: an extra image does not change the fingerprint; a
name change does; and a record whose cached fingerprint differs is
re-accepted by an incremental run. -/
theorem spec_C6_witness :
    content_hash c6None = content_hash c6Img ∧
    content_hash { c6None with name := "Prod2" } ≠ content_hash c6None ∧
    process_url c6Cfg c6DbOther true "u" =
      (some c6Empty,
        mark_url_done (update_product_cache c6DbOther c6Empty "t1") "u" "ok"
          "t1") :=
  ⟨spec_C6_amended.1 c6None c6Img rfl rfl rfl rfl,
   spec_C6_amended.2.2.2.1 c6None "Prod2" (by decide),
   spec_C6_amended.2.2.1 c6Cfg c6DbOther "u" c6Empty (by decide) (by decide)
     (by decide) (by decide)⟩

/-- Claim C7, confirmed: in resume mode (no test cap), URL sourcing is:
pending URLs exist → exactly the pending list is processed on the unchanged
store; none pending but some registered → `scrape_all` returns the empty
list with the store untouched; nothing registered → the discovered
`productUrls` are processed after being registered, and every discovered URL
not already present in the table (e.g. any URL when the table is empty) gets
a fresh `pending` row. -/
theorem spec_C7 :
    ∀ (cfg : ScrapeConfig) (db : DB) (inc : Bool),
      (get_pending_urls db cfg.sourceName ≠ [] →
        scrape_all cfg none db inc true =
          runUrls cfg inc (get_pending_urls db cfg.sourceName) db)
      ∧ (get_pending_urls db cfg.sourceName = [] →
          get_all_urls db cfg.sourceName ≠ [] →
          scrape_all cfg none db inc true = ([], db))
      ∧ (get_pending_urls db cfg.sourceName = [] →
          get_all_urls db cfg.sourceName = [] →
          scrape_all cfg none db inc true =
            runUrls cfg inc cfg.productUrls
              (register_urls db cfg.productUrls cfg.sourceName)
          ∧ ∀ url ∈ cfg.productUrls, lookupUrl db url = none →
              lookupUrl (register_urls db cfg.productUrls cfg.sourceName) url =
                some ⟨url, cfg.sourceName, "pending", none, none⟩) := by
  intro cfg db inc
  refine ⟨?_, ?_, ?_⟩
  · intro h
    rw [scrape_all_no_limit, source_urls_pending h]
  · intro h1 h2
    rw [scrape_all_no_limit, source_urls_all_done h1 h2]
    rfl
  · intro h1 h2
    refine ⟨by rw [scrape_all_no_limit, source_urls_fresh h1 h2], ?_⟩
    intro url hm h
    exact regFold_find_of_absent h hm

/-- Claim C7, witness: the three branches on concrete stores — two pending
URLs are exactly what gets processed; a fully-done store yields the empty
run; an empty store triggers discovery and pending registration. -/
theorem spec_C7_witness :
    scrape_all c7Cfg none c7DbPending false true =
      runUrls c7Cfg false ["a", "b"] c7DbPending ∧
    scrape_all c7Cfg none c7DbDone false true = ([], c7DbDone) ∧
    scrape_all c7Cfg none DB.empty false true =
      runUrls c7Cfg false ["c", "d"] (register_urls DB.empty ["c", "d"] "S") ∧
    lookupUrl (register_urls DB.empty ["c", "d"] "S") "c" =
      some ⟨"c", "S", "pending", none, none⟩ :=
  ⟨(spec_C7 c7Cfg c7DbPending false).1 (by decide),
   (spec_C7 c7Cfg c7DbDone false).2.1 (by decide) (by decide),
   ((spec_C7 c7Cfg DB.empty false).2.2 (by decide) (by decide)).1,
   ((spec_C7 c7Cfg DB.empty false).2.2 (by decide) (by decide)).2 "c"
     (by decide) (by decide)⟩

/-- Claim C8, confirmed: catalog category aggregation groups the merged
records by their truthy `category` value (records without one are excluded),
emits one `{id, name, count}` entry per category whose count is the number of
records carrying that category (with `name` the title-cased id), has no
duplicate ids, and is ordered by descending count; on records with
categories alpha, alpha, beta the output is
`[{alpha, 2}, {beta, 1}]` in that order. -/
theorem spec_C8 :
    (∀ (old new : List Product) (srcs : List SupplierKey) (now : String),
      List.Pairwise (fun a b : CategoryEntry => b.count ≤ a.count)
        (save_products old new srcs now).categories
      ∧ (∀ e ∈ (save_products old new srcs now).categories,
          e.id ≠ "" ∧ e.name = pyTitle (dashToSpace e.id) ∧
          e.count = ((save_products old new srcs now).products.filter
            (fun p => p.category = some e.id)).length)
      ∧ ((save_products old new srcs now).categories.map
          (fun e => e.id)).Nodup
      ∧ (∀ c : String, c ≠ "" →
          ((∃ p ∈ (save_products old new srcs now).products,
              p.category = some c) ↔
            ∃ e ∈ (save_products old new srcs now).categories, e.id = c)))
    ∧ (save_products [] c8Products [] "t").categories =
        [⟨"alpha", "Alpha", 2⟩, ⟨"beta", "Beta", 1⟩] := by
  refine ⟨?_, by decide⟩
  intro old new srcs now
  haveI instTr : IsTrans (String × ℕ) (fun a b => b.2 ≤ a.2) :=
    ⟨fun a b c h1 h2 => le_trans h2 h1⟩
  haveI instTo : IsTotal (String × ℕ) (fun a b => b.2 ≤ a.2) :=
    ⟨fun a b => le_total b.2 a.2⟩
  have hcats : (save_products old new srcs now).categories =
      ((categoryCounts ((save_products old new srcs now).products)).insertionSort
        (fun a b => b.2 ≤ a.2)).map
        (fun e => CategoryEntry.mk e.1 (pyTitle (dashToSpace e.1)) e.2) := rfl
  have hfold : categoryCounts ((save_products old new srcs now).products) =
      ((save_products old new srcs now).products).foldl catStep [] := rfl
  have hnd : (keysOf (categoryCounts
      ((save_products old new srcs now).products))).Nodup := by
    rw [hfold]
    exact nodup_keysOf_foldl_catStep _ [] (by simp [keysOf])
  refine ⟨?_, ?_, ?_, ?_⟩
  · rw [hcats]
    exact List.Pairwise.map _ (fun a b h => h)
      (List.sorted_insertionSort (fun a b : String × ℕ => b.2 ≤ a.2)
        (categoryCounts ((save_products old new srcs now).products)))
  · intro e he
    rw [hcats] at he
    obtain ⟨pr, hpr, rfl⟩ := List.mem_map.mp he
    obtain ⟨c, n⟩ := pr
    have hprm : (c, n) ∈ categoryCounts
        ((save_products old new srcs now).products) :=
      (List.mem_insertionSort (fun a b : String × ℕ => b.2 ≤ a.2)).mp hpr
    have hkey : c ∈ keysOf (categoryCounts
        ((save_products old new srcs now).products)) :=
      List.mem_map.mpr ⟨(c, n), hprm, rfl⟩
    have hex := (mem_keysOf_foldl_catStep
      ((save_products old new srcs now).products) [] c).mp (hfold ▸ hkey)
    have hcne : c ≠ "" := by
      rcases hex with hex | ⟨p, _, _, hcne⟩
      · simp [keysOf] at hex
      · exact hcne
    have hcv : countVal (categoryCounts
        ((save_products old new srcs now).products)) c = n :=
      countVal_of_mem_nodup hnd hprm
    have hzero : countVal ([] : List (String × ℕ)) c = 0 := rfl
    have hn : n = List.countP (fun p => p.category = some c)
        ((save_products old new srcs now).products) := by
      rw [← hcv, hfold, countVal_foldl_catStep hcne, hzero, Nat.zero_add]
    refine ⟨hcne, rfl, ?_⟩
    show n = (((save_products old new srcs now).products).filter
      (fun p => p.category = some c)).length
    rw [← List.countP_eq_length_filter]
    exact hn
  · rw [hcats, List.map_map]
    have hperm := (List.perm_insertionSort (fun a b : String × ℕ => b.2 ≤ a.2)
      (categoryCounts ((save_products old new srcs now).products))).map
      ((fun e : CategoryEntry => e.id) ∘
        (fun e : String × ℕ => CategoryEntry.mk e.1 (pyTitle (dashToSpace e.1)) e.2))
    refine hperm.symm.nodup ?_
    have : (categoryCounts ((save_products old new srcs now).products)).map
        ((fun e : CategoryEntry => e.id) ∘
          (fun e : String × ℕ =>
            CategoryEntry.mk e.1 (pyTitle (dashToSpace e.1)) e.2)) =
        keysOf (categoryCounts ((save_products old new srcs now).products)) :=
      List.map_congr_left (fun a _ => rfl)
    rw [this]
    exact hnd
  · intro c hc
    constructor
    · rintro ⟨p, hp, hpc⟩
      have hkey : c ∈ keysOf (categoryCounts
          ((save_products old new srcs now).products)) := by
        rw [hfold]
        exact (mem_keysOf_foldl_catStep _ [] c).mpr (Or.inr ⟨p, hp, hpc, hc⟩)
      obtain ⟨pr, hprm, hfst⟩ := List.mem_map.mp hkey
      refine ⟨CategoryEntry.mk pr.1 (pyTitle (dashToSpace pr.1)) pr.2, ?_, hfst⟩
      rw [hcats]
      exact List.mem_map.mpr ⟨pr,
        (List.mem_insertionSort (fun a b : String × ℕ => b.2 ≤ a.2)).mpr hprm,
        rfl⟩
    · rintro ⟨e, he, heid⟩
      rw [hcats] at he
      obtain ⟨pr, hpr, rfl⟩ := List.mem_map.mp he
      have hprm : pr ∈ categoryCounts
          ((save_products old new srcs now).products) :=
        (List.mem_insertionSort (fun a b : String × ℕ => b.2 ≤ a.2)).mp hpr
      have hkey : c ∈ keysOf (categoryCounts
          ((save_products old new srcs now).products)) :=
        List.mem_map.mpr ⟨pr, hprm, heid⟩
      have hex := (mem_keysOf_foldl_catStep
        ((save_products old new srcs now).products) [] c).mp (hfold ▸ hkey)
      rcases hex with hex | ⟨p, hp, hpc, _⟩
      · simp [keysOf] at hex
      · exact ⟨p, hp, hpc⟩

/-- Claim C8, witness: the per-entry characterization applied to the alpha
entry of the concrete alpha/alpha/beta catalog. -/
theorem spec_C8_witness :
    ("alpha" : String) ≠ "" ∧
    ("Alpha" : String) = pyTitle (dashToSpace "alpha") ∧
    (2 : ℕ) = ((save_products [] c8Products [] "t").products.filter
      (fun p => p.category = some "alpha")).length :=
  (spec_C8.1 [] c8Products [] "t").2.1 ⟨"alpha", "Alpha", 2⟩ (by decide)

/-- Claim C9, confirmed: marking a URL that has no row in the progress table
is a complete no-op for both `mark_url_done` and `mark_url_error`: the store
is returned unchanged (the SQL `UPDATE ... WHERE url = ?` matches no row and
inserts nothing), so the URL stays invisible to every query and count. -/
theorem spec_C9 :
    ∀ (db : DB) (url res err now : String),
      lookupUrl db url = none →
        mark_url_done db url res now = db ∧
        mark_url_error db url err now = db := by
  intro db url res err now h
  constructor
  · have h1 := update_rows_id
      (fun r =>
        { r with
          status := "done", processedAt := some now, result := some res }) h
    exact (congrArg (fun rows =>
      ({ urlsProgress := rows, productsCache := db.productsCache } : DB)) h1)
  · have h1 := update_rows_id
      (fun r =>
        { r with
          status := "error", processedAt := some now,
          result := some (⟨err.data.take 500⟩ : String) }) h
    exact (congrArg (fun rows =>
      ({ urlsProgress := rows, productsCache := db.productsCache } : DB)) h1)

/-- Claim C9, witness: marking the unregistered URL "zzz" in a store that
only holds "a" changes nothing. -/
theorem spec_C9_witness :
    mark_url_done c9Db "zzz" "ok" "t9" = c9Db ∧
    mark_url_error c9Db "zzz" "boom" "t9" = c9Db :=
  spec_C9 c9Db "zzz" "ok" "boom" "t9" (by decide)

/-- Claim C10, confirmed: a missing description and an empty-string
description produce the same fingerprint (`description or ''` maps both to
`''`), `product_changed` cannot distinguish the two variants against any
store, and with either variant fingerprinted, re-scraping the other is
reported as unchanged. -/
theorem spec_C10 :
    ∀ (p : Product) (db : DB) (now : String),
      content_hash { p with description := none } =
        content_hash { p with description := some "" } ∧
      product_changed db { p with description := none } =
        product_changed db { p with description := some "" } ∧
      product_changed
        (update_product_cache db { p with description := some "" } now)
        { p with description := none } = false := by
  intro p db now
  have hh : content_hash { p with description := none } =
      content_hash { p with description := some "" } :=
    content_hash_congr rfl rfl rfl (by simp [pyStrOr])
  refine ⟨hh, ?_, ?_⟩
  · unfold product_changed
    have hc : get_cached_product db ({ p with description := none } : Product).supplier
        ({ p with description := none } : Product).sku =
        get_cached_product db ({ p with description := some "" } : Product).supplier
        ({ p with description := some "" } : Product).sku := rfl
    rw [hc, hh]
  · unfold product_changed
    have hc : get_cached_product
        (update_product_cache db { p with description := some "" } now)
        ({ p with description := none } : Product).supplier
        ({ p with description := none } : Product).sku =
        some ⟨({ p with description := some "" } : Product).id, p.supplier,
          p.sku, p.price, content_hash { p with description := some "" }, now,
          ({ p with description := some "" } : Product).sourceUrl⟩ :=
      get_cached_update db { p with description := some "" } now
    rw [hc, hh]
    simp

end Scraper
